import Mathlib

/-!
Verification development for the in-browser build-and-preview pipeline of the
code-editor repository.  The definitions below are a shallow embedding of the
TypeScript source: the session reducer (`EditorContext`), the file collector,
the path resolver, the document assembler (`bundleAndPreview`), and the
console message router (`handleConsoleMessage`).  JavaScript `Map`s are
embedded as insertion-ordered association lists, blob URLs as counter-indexed
handles tracked in an explicit browser state, and the asynchronous bundling
service as an `Except String String` input (its only observable behaviour at
the pass boundary).  The runtime instrumentation snippet's text is treated as
an opaque `String` parameter: no property considered here depends on its
content, only on where the assembler splices it.
-/

/-- JavaScript `\s` whitespace class restricted to ASCII, as used by the
`<link>`/`<script>` tag patterns of the document assembler. -/
def jsSpace (c : Char) : Bool :=
  c = ' ' || c = '\t' || c = '\n' || c = '\r' || c = '\x0b' || c = '\x0c'

/-- Quote class `["']` of the tag patterns. -/
def quoteChar (c : Char) : Bool :=
  c = '"' || c = '\''

/-- Case-insensitive character comparison (the tag patterns carry the `i`
flag; ASCII folding suffices for the documents considered). -/
def lowerEqB (a b : Char) : Bool :=
  a.toLower == b.toLower

/-- Consume a literal (case-insensitively) from the front of the input,
returning the rest on success. -/
def dropLitCI : List Char → List Char → Option (List Char)
  | [], l => some l
  | _ :: _, [] => none
  | p :: ps, c :: cs => if lowerEqB p c then dropLitCI ps cs else none

/-- `startsWithL l p` holds when `p` is an initial segment of `l`
(case-sensitive; used for plain-string search and replacement). -/
def startsWithL : List Char → List Char → Bool
  | _, [] => true
  | [], _ :: _ => false
  | c :: cs, p :: ps => c == p && startsWithL cs ps

/-- Substring test on character lists. -/
def containsL : List Char → List Char → Bool
  | [], pat => pat.isEmpty
  | c :: cs, pat => startsWithL (c :: cs) pat || containsL cs pat

/-- Substring test on strings (JavaScript `String.prototype.includes`). -/
def strContains (s pat : String) : Bool :=
  containsL s.toList pat.toList

/-- `String.prototype.startsWith`. -/
def strStarts (s pat : String) : Bool :=
  startsWithL s.toList pat.toList

/-- `String.prototype.endsWith`. -/
def strEnds (s pat : String) : Bool :=
  startsWithL s.toList.reverse pat.toList.reverse

/-- Fuel-driven count of non-overlapping occurrences of a pattern. -/
def countLGo : Nat → List Char → List Char → Nat
  | 0, _, _ => 0
  | _ + 1, [], _ => 0
  | fuel + 1, c :: cs, pat =>
    if startsWithL (c :: cs) pat && !pat.isEmpty then
      1 + countLGo fuel (List.drop (pat.length - 1) cs) pat
    else
      countLGo fuel cs pat

/-- Number of non-overlapping occurrences of `pat` in `s`. -/
def countStr (s pat : String) : Nat :=
  countLGo (s.toList.length + 1) s.toList pat.toList

/-- Fuel-driven first-occurrence replacement on character lists. -/
def replFirstGo : Nat → List Char → List Char → List Char → List Char
  | 0, l, _, _ => l
  | _ + 1, [], _, _ => []
  | fuel + 1, c :: cs, pat, rep =>
    if startsWithL (c :: cs) pat && !pat.isEmpty then
      rep ++ List.drop (pat.length - 1) cs
    else
      c :: replFirstGo fuel cs pat rep

/-- JavaScript `String.prototype.replace` with a plain-string pattern:
replaces the first occurrence only (an empty pattern inserts at the front,
as in JavaScript). -/
def replaceFirst (s pat rep : String) : String :=
  if pat.toList.isEmpty then rep ++ s
  else ⟨replFirstGo (s.toList.length + 1) s.toList pat.toList rep.toList⟩

/-- Collapse runs of `/` to a single `/` (the `replace(/\/+/g, '/')` step of
the path resolver). -/
def collapseSlashes : List Char → List Char
  | [] => []
  | [c] => [c]
  | a :: b :: rest =>
    if a = '/' && b = '/' then collapseSlashes (b :: rest)
    else a :: collapseSlashes (b :: rest)

/-- Strip a single trailing `/` (the `replace(/\/$/, '')` step). -/
def dropTrailingSlash (l : List Char) : List Char :=
  match l.getLast? with
  | some '/' => l.dropLast
  | _ => l

/-- `normalize` of the source's `resolvePath`. -/
def normalizePath (s : String) : String :=
  ⟨dropTrailingSlash (collapseSlashes s.toList)⟩

/-- Path resolver (`resolvePath` in the source): normalizes the base, strips
a leading `./` from the reference if present, and joins with `/`. -/
def resolvePath (basePath relativePath : String) : String :=
  let base := normalizePath basePath
  if strStarts relativePath "./" then base ++ "/" ++ relativePath.drop 2
  else base ++ "/" ++ relativePath

/-- `s.substring(0, s.lastIndexOf('/'))` as used for entry/html directories;
returns `""` when `s` has no slash (JavaScript `lastIndexOf` = -1). -/
def parentDir (s : String) : String :=
  let l := s.toList
  if l.contains '/' then ⟨(((l.reverse).dropWhile (fun c => c ≠ '/')).drop 1).reverse⟩
  else ""

/-- `src.replace(/^\.\//, '')`: strip one leading `./`. -/
def stripDotSlash (s : String) : String :=
  if strStarts s "./" then s.drop 2 else s

/-- Decimal digit characters. -/
def digitChars : List Char := ['0', '1', '2', '3', '4', '5', '6', '7', '8', '9']

/-- Decimal digit for `d < 10` (clamped otherwise). -/
def digitChar10 (d : Nat) : Char :=
  if d = 0 then '0' else if d = 1 then '1' else if d = 2 then '2' else if d = 3 then '3'
  else if d = 4 then '4' else if d = 5 then '5' else if d = 6 then '6' else if d = 7 then '7'
  else if d = 8 then '8' else '9'

/-- Fuel-driven decimal rendering (the fuel `n + 1` always suffices). -/
def natDigitsGo : Nat → Nat → List Char
  | 0, _ => []
  | fuel + 1, n =>
    if n < 10 then [digitChar10 n]
    else natDigitsGo fuel (n / 10) ++ [digitChar10 (n % 10)]

/-- Decimal digits of a natural number, most significant first. -/
def natDigits (n : Nat) : List Char :=
  natDigitsGo (n + 1) n

/-- Model of `URL.createObjectURL`'s result: an opaque, per-handle-unique
URI, rendered here as `blob:` followed by the handle's index. -/
def blobUrl (n : Nat) : String :=
  "blob:" ++ ⟨natDigits n⟩

/-- Insertion-ordered association list embedding a JavaScript
`Map<string, string>` (the shape of `allFiles`, `folderFiles` and the
asset-URL map). -/
abbrev Smap := List (String × String)

/-- `Map.prototype.get`. -/
def Smap.get (m : Smap) (k : String) : Option String :=
  (m.find? (fun p => p.1 == k)).map (·.2)

/-- `Map.prototype.has`. -/
def Smap.hasKey (m : Smap) (k : String) : Bool :=
  (m.get k).isSome

/-- `Map.prototype.set`: update in place when the key exists (keeping its
insertion position), append otherwise. -/
def Smap.set (m : Smap) (k v : String) : Smap :=
  if m.hasKey k then m.map (fun p => if p.1 == k then (k, v) else p)
  else m ++ [(k, v)]

/-- Iteration order of `Map.prototype.keys`. -/
def Smap.keys (m : Smap) : List String :=
  m.map (·.1)

/-- Node of the virtual file tree (`FileNode` in the source).  The source
uses one interface with optional `content`/`children`; per the documented
tree invariant (exactly one of the two is meaningful per `type`, which every
creation site obeys) the embedding splits the two variants. -/
inductive FileNode where
  | file (id name : String) (content : Option String) (fullPath : String)
  | dir (id name : String) (children : List FileNode) (fullPath : String)
deriving Repr

/-- Node identifier. -/
def FileNode.id : FileNode → String
  | .file i _ _ _ => i
  | .dir i _ _ _ => i

/-- Node display name. -/
def FileNode.name : FileNode → String
  | .file _ n _ _ => n
  | .dir _ n _ _ => n

/-- Node full path. -/
def FileNode.fullPath : FileNode → String
  | .file _ _ _ p => p
  | .dir _ _ _ p => p

mutual
/-- `findNodeById` of the source: the node itself when ids match, else the
first hit among the children in order (files have no children). -/
def findNodeById (n : FileNode) (tid : String) : Option FileNode :=
  match n with
  | .file i nm c p => if i = tid then some (.file i nm c p) else none
  | .dir i nm cs p => if i = tid then some (.dir i nm cs p) else findInKids cs tid

/-- Left-to-right search through a child list. -/
def findInKids (ns : List FileNode) (tid : String) : Option FileNode :=
  match ns with
  | [] => none
  | c :: rest =>
    match findNodeById c tid with
    | some r => some r
    | none => findInKids rest tid
end

mutual
/-- The `DELETE_NODE` case of the reducer's `update` helper: `null` for the
targeted node (dropping its whole subtree), recursive filtering otherwise. -/
def deleteNodeById (n : FileNode) (tid : String) : Option FileNode :=
  match n with
  | .file i nm c p => if i = tid then none else some (.file i nm c p)
  | .dir i nm cs p => if i = tid then none else some (.dir i nm (deleteKids cs tid) p)

/-- `children.map(update).filter(n => n !== null)`. -/
def deleteKids (ns : List FileNode) (tid : String) : List FileNode :=
  match ns with
  | [] => []
  | c :: rest =>
    match deleteNodeById c tid with
    | none => deleteKids rest tid
    | some c' => c' :: deleteKids rest tid
end

mutual
/-- `updateNodeContent` of the source.  When the matched id names a folder
the source spreads a `content` field onto the folder object and stops; that
field is meaningless on a folder (and unreachable for `SAVE_FILE`, whose
target is the active file), so the embedding stops without recursing, which
is the same search behaviour. -/
def updateNodeContent (n : FileNode) (tid content : String) : FileNode :=
  match n with
  | .file i nm c p => if i = tid then .file i nm (some content) p else .file i nm c p
  | .dir i nm cs p => if i = tid then .dir i nm cs p else .dir i nm (updateKids cs tid content) p

/-- Recursive map over a child list. -/
def updateKids (ns : List FileNode) (tid content : String) : List FileNode :=
  match ns with
  | [] => []
  | c :: rest => updateNodeContent c tid content :: updateKids rest tid content
end

/-- Session state (`State` in `EditorContext`). -/
structure EState where
  fileTree : FileNode
  selectedFile : Option FileNode
  fileContent : String
  language : String
  openFiles : List (FileNode × Bool)
  activeFile : Option FileNode
  lastHtmlFile : Option FileNode
  showPreview : Bool
deriving Repr

/-- The reducer actions the claims under analysis exercise
(`UPDATE_CONTENT`, `SAVE_FILE`, `DELETE_NODE`). -/
inductive EAction where
  | updateContent (content : String)
  | saveFile (fileId : String)
  | deleteNode (id : String)

/-- `{...node, content: c}` on the active/selected file copy. -/
def setContent (n : FileNode) (c : String) : FileNode :=
  match n with
  | .file i nm _ p => .file i nm (some c) p
  | .dir i nm cs p => .dir i nm cs p

/-- `syncOpenFiles`: re-resolve every open handle against the new tree,
dropping the ones whose node no longer exists. -/
def syncOpenFiles (openFiles : List (FileNode × Bool)) (tree : FileNode) :
    List (FileNode × Bool) :=
  openFiles.filterMap (fun f => (findNodeById tree f.1.id).map (fun n => (n, f.2)))

/-- The session reducer of `EditorContext`, restricted to the actions above;
each branch is a direct transcription of the corresponding `switch` case. -/
def reducer (s : EState) (a : EAction) : EState :=
  match a with
  | .updateContent c =>
    match s.activeFile with
    | none => s
    | some act =>
      { s with
        fileContent := c
        activeFile := some (setContent act c)
        openFiles := s.openFiles.map (fun f => if f.1.id = act.id then (f.1, true) else f)
        selectedFile :=
          match s.selectedFile with
          | some sel => if sel.id = act.id then some (setContent sel c) else some sel
          | none => none }
  | .saveFile fid =>
    match s.activeFile with
    | none => s
    | some act =>
      if act.id ≠ fid then s
      else
        let newTree := updateNodeContent s.fileTree fid s.fileContent
        let newOpen := syncOpenFiles s.openFiles newTree
        { s with
          fileTree := newTree
          openFiles := newOpen.map (fun f => if f.1.id = fid then (f.1, false) else f) }
  | .deleteNode i =>
    let newTree? := deleteNodeById s.fileTree i
    let baseTree := newTree?.getD s.fileTree
    let newOpen := syncOpenFiles s.openFiles baseTree
    { s with
      fileTree := baseTree
      openFiles := newOpen.filter (fun f => f.1.id ≠ i)
      activeFile :=
        match s.activeFile with
        | some act =>
          if act.id = i then
            match newOpen.getLast? with
            | some f => some f.1
            | none => none
          else some act
        | none => none
      selectedFile :=
        match s.selectedFile with
        | some sel => if sel.id = i then none else some sel
        | none => none
      lastHtmlFile :=
        match s.lastHtmlFile with
        | some lh => if lh.id = i then none else some lh
        | none => none }

mutual
/-- `traverse` of `collectFiles`: files are recorded in `allFiles` under
`node.fullPath || (base ? base/name : development/name)` with missing
content as `""`, and additionally in `folderFiles` when nested under the
project directory; folders recurse with the computed path as the new base. -/
def traverseNode (folderPath base : String) (n : FileNode) (acc : Smap × Smap) :
    Smap × Smap :=
  match n with
  | .file _ nm c fp =>
    let path := if fp ≠ "" then fp else (if base ≠ "" then base ++ "/" ++ nm else "development/" ++ nm)
    let af := acc.2.set path (c.getD "")
    let ff :=
      if folderPath ≠ "" && strStarts path (folderPath ++ "/") then
        acc.1.set path (c.getD "")
      else acc.1
    (ff, af)
  | .dir _ nm cs fp =>
    let path := if fp ≠ "" then fp else (if base ≠ "" then base ++ "/" ++ nm else "development/" ++ nm)
    traverseKids folderPath path cs acc

/-- `forEach` over a child list, threading the two maps in order. -/
def traverseKids (folderPath base : String) (ns : List FileNode) (acc : Smap × Smap) :
    Smap × Smap :=
  match ns with
  | [] => acc
  | c :: rest => traverseKids folderPath base rest (traverseNode folderPath base c acc)
end

/-- `collectFiles` of the source: derive the project directory from
`lastHtmlFile` (else from an HTML `activeFile`, else root), then walk the
children of the `development-folder` node. -/
def collectFiles (tree : FileNode) (activeF lastH : Option FileNode) : Smap × Smap :=
  let folderPath :=
    match lastH with
    | some f =>
      if f.fullPath ≠ "" then parentDir f.fullPath
      else
        match activeF with
        | some g => if strEnds g.name ".html" && g.fullPath ≠ "" then parentDir g.fullPath else ""
        | none => ""
    | none =>
      match activeF with
      | some g => if strEnds g.name ".html" && g.fullPath ≠ "" then parentDir g.fullPath else ""
      | none => ""
  let dev : Option FileNode :=
    match tree with
    | .dir _ _ cs _ => cs.find? (fun c => c.id == "development-folder")
    | .file _ _ _ _ => none
  match dev with
  | some (.dir _ _ cs _) => traverseKids folderPath "" cs ([], [])
  | _ => ([], [])

/-- Browser-side blob store: next fresh handle index and the list of live
(unrevoked) handles with their contents.  `URL.createObjectURL` appends a
handle; the source never calls `URL.revokeObjectURL`, so no operation below
removes one. -/
structure Browser where
  nextId : Nat
  live : List (Nat × String)
deriving Repr

/-- `URL.createObjectURL(new Blob([content]))`. -/
def createObjectURL (br : Browser) (content : String) : String × Browser :=
  (blobUrl br.nextId, ⟨br.nextId + 1, br.live ++ [(br.nextId, content)]⟩)

/-- Cross-pass orchestrator state: the browser blob store plus the
`activeScriptRef` and `lastRenderedHtmlRef` refs. -/
structure OrchSt where
  br : Browser
  activeScript : Option String
  lastRendered : Option String
deriving Repr

/-- State threaded through the tag-rewriting callbacks of one pass: the blob
store, the `assetUrls`/`assetUrlMapRef` map (cleared at pass start), and the
`hasCss` flag.  The source also accumulates `cssContents`/`jsContents` and
`hasJs`, which it never reads afterwards; they are omitted. -/
structure RewriteSt where
  br : Browser
  assetUrls : Smap
  hasCss : Bool
deriving Repr

/-- `folderFiles.get(p) || allFiles.get(p)` under a `has`-guard: JavaScript
`||` skips an empty-string hit in the first map, and a miss in both yields
`undefined`, which `new Blob` stringifies. -/
def jsOrElse (a b : Option String) : String :=
  match a with
  | some s => if s = "" then (match b with | some t => t | none => "undefined") else s
  | none => match b with | some t => t | none => "undefined"

/-- The secondary fallback path `htmlDir + "/" + reference-without-./`
checked against both maps when the resolved path misses. -/
def fbPath (htmlDir ref : String) : String :=
  htmlDir ++ "/" ++ stripDotSlash ref

/-- The rewritten stylesheet tag of a resolution hit. -/
def linkTagFor (url : String) : String :=
  "<link rel=\"stylesheet\" href=\"" ++ url ++ "\">"

/-- The rewritten script tag of a resolution hit: module-typed exactly when
the flag is set. -/
def scriptTagFor (isModule : Bool) (url : String) : String :=
  "<script" ++ (if isModule then " type=\"module\"" else "") ++ " src=\"" ++ url ++ "\"></script>"

/-- Hit action of the stylesheet callback: synthesize a blob for the content,
record the URL under the resolved path, set `hasCss`. -/
def cssHit (path content : String) (rs : RewriteSt) : String × RewriteSt :=
  let (url, br') := createObjectURL rs.br content
  (linkTagFor url, ⟨br', rs.assetUrls.set path url, true⟩)

/-- Hit action of the script callback: synthesize a blob, record the URL, and
mark the tag as a module script when the content textually contains
`"import "` or `"export "`. -/
def jsHit (path content : String) (rs : RewriteSt) : String × RewriteSt :=
  let (url, br') := createObjectURL rs.br content
  (scriptTagFor (strContains content "import " || strContains content "export ") url,
    ⟨br', rs.assetUrls.set path url, rs.hasCss⟩)

/-- Stylesheet `<link>` callback of the assembler: three-tier lookup
(`folderFiles`, then `allFiles`, then the naive fallback path against both),
returning the original matched text untouched on a complete miss. -/
def rewriteLink (ff af : Smap) (htmlDir : String) (rs : RewriteSt) (matched href : String) :
    String × RewriteSt :=
  match ff.get (resolvePath htmlDir href) with
  | some c => cssHit (resolvePath htmlDir href) c rs
  | none =>
    match af.get (resolvePath htmlDir href) with
    | some c => cssHit (resolvePath htmlDir href) c rs
    | none =>
      if ff.hasKey (fbPath htmlDir href) || af.hasKey (fbPath htmlDir href) then
        cssHit (fbPath htmlDir href)
          (jsOrElse (ff.get (fbPath htmlDir href)) (af.get (fbPath htmlDir href))) rs
      else (matched, rs)

/-- Script `<script src=...>` callback of the assembler, with the same
three-tier lookup. -/
def rewriteScript (ff af : Smap) (htmlDir : String) (rs : RewriteSt) (matched src : String) :
    String × RewriteSt :=
  match ff.get (resolvePath htmlDir src) with
  | some c => jsHit (resolvePath htmlDir src) c rs
  | none =>
    match af.get (resolvePath htmlDir src) with
    | some c => jsHit (resolvePath htmlDir src) c rs
    | none =>
      if ff.hasKey (fbPath htmlDir src) || af.hasKey (fbPath htmlDir src) then
        jsHit (fbPath htmlDir src)
          (jsOrElse (ff.get (fbPath htmlDir src)) (af.get (fbPath htmlDir src))) rs
      else (matched, rs)

/-- Observation of which file content the script callback's lookup selects
(mirrors the tiers of `rewriteScript`; `none` on a complete miss). -/
def scriptContentUsed (ff af : Smap) (htmlDir src : String) : Option String :=
  match ff.get (resolvePath htmlDir src) with
  | some c => some c
  | none =>
    match af.get (resolvePath htmlDir src) with
    | some c => some c
    | none =>
      if ff.hasKey (fbPath htmlDir src) || af.hasKey (fbPath htmlDir src) then
        some (jsOrElse (ff.get (fbPath htmlDir src)) (af.get (fbPath htmlDir src)))
      else none

/-- Search the non-`>` span of a tag for a literal followed by a quote
character, resolving the pattern's backtracking by the first viable
occurrence (identical on tags carrying a single such attribute, which is
every document considered here). -/
def seekLitQuote (lit : List Char) : List Char → Option (Char × List Char)
  | [] => none
  | c :: cs =>
    match dropLitCI lit (c :: cs) with
    | some (q :: rest) =>
      if quoteChar q then some (q, rest)
      else if c = '>' then none else seekLitQuote lit cs
    | _ => if c = '>' then none else seekLitQuote lit cs

/-- Search the non-`>` span for `rel=["']stylesheet["']` (case-insensitive),
first viable occurrence. -/
def seekRelStylesheet : List Char → Option (List Char)
  | [] => none
  | c :: cs =>
    match dropLitCI "rel=".toList (c :: cs) with
    | some (q :: rest) =>
      if quoteChar q then
        match dropLitCI "stylesheet".toList rest with
        | some (q2 :: rest2) =>
          if quoteChar q2 then some rest2
          else if c = '>' then none else seekRelStylesheet cs
        | _ => if c = '>' then none else seekRelStylesheet cs
      else if c = '>' then none else seekRelStylesheet cs
    | _ => if c = '>' then none else seekRelStylesheet cs

/-- `[^>]*>`: greedy skip to the closing angle bracket. -/
def skipToGt : List Char → Option (List Char)
  | [] => none
  | c :: cs => if c = '>' then some cs else skipToGt cs

/-- Match the stylesheet pattern
`<link\s+[^>]*href=["']([^"']+)["'][^>]*rel=["']stylesheet["'][^>]*>` (flags
`gi`) at the head of the input; on success return the captured `href` and the
input remaining after the match. -/
def matchLinkAt (l : List Char) : Option (String × List Char) :=
  match dropLitCI "<link".toList l with
  | none => none
  | some r1 =>
    match r1 with
    | [] => none
    | c0 :: _ =>
      if jsSpace c0 then
        match seekLitQuote "href=".toList r1 with
        | none => none
        | some (_, r2) =>
          let cap := r2.takeWhile (fun c => !quoteChar c)
          let r3 := r2.drop cap.length
          if cap.isEmpty then none
          else
            match r3 with
            | q2 :: r4 =>
              if quoteChar q2 then
                match seekRelStylesheet r4 with
                | none => none
                | some r5 =>
                  match skipToGt r5 with
                  | none => none
                  | some r6 => some (⟨cap⟩, r6)
              else none
            | [] => none
      else none

/-- Match the script pattern `<script\s+[^>]*src=["']([^"']+)["'][^>]*>`
(flags `gi`) at the head of the input. -/
def matchScriptAt (l : List Char) : Option (String × List Char) :=
  match dropLitCI "<script".toList l with
  | none => none
  | some r1 =>
    match r1 with
    | [] => none
    | c0 :: _ =>
      if jsSpace c0 then
        match seekLitQuote "src=".toList r1 with
        | none => none
        | some (_, r2) =>
          let cap := r2.takeWhile (fun c => !quoteChar c)
          let r3 := r2.drop cap.length
          if cap.isEmpty then none
          else
            match r3 with
            | q2 :: r4 =>
              if quoteChar q2 then
                match skipToGt r4 with
                | none => none
                | some r5 => some (⟨cap⟩, r5)
              else none
            | [] => none
      else none

/-- `htmlDoc.replace(linkRegex, cb)`: left-to-right non-overlapping scan,
invoking the stylesheet callback on every match. -/
def plGo (ff af : Smap) (dir : String) : Nat → List Char → RewriteSt → List Char × RewriteSt
  | 0, l, rs => (l, rs)
  | _ + 1, [], rs => ([], rs)
  | fuel + 1, c :: cs, rs =>
    match matchLinkAt (c :: cs) with
    | some (href, rest) =>
      let matched : String := ⟨(c :: cs).take ((c :: cs).length - rest.length)⟩
      let (rep, rs') := rewriteLink ff af dir rs matched href
      let (out, rs'') := plGo ff af dir fuel rest rs'
      (rep.toList ++ out, rs'')
    | none =>
      let (out, rs') := plGo ff af dir fuel cs rs
      (c :: out, rs')

/-- Stylesheet rewriting pass over a document. -/
def processLinks (ff af : Smap) (dir : String) (l : List Char) (rs : RewriteSt) :
    List Char × RewriteSt :=
  plGo ff af dir (l.length + 1) l rs

/-- `htmlDoc.replace(scriptRegex, cb)`. -/
def psGo (ff af : Smap) (dir : String) : Nat → List Char → RewriteSt → List Char × RewriteSt
  | 0, l, rs => (l, rs)
  | _ + 1, [], rs => ([], rs)
  | fuel + 1, c :: cs, rs =>
    match matchScriptAt (c :: cs) with
    | some (src, rest) =>
      let matched : String := ⟨(c :: cs).take ((c :: cs).length - rest.length)⟩
      let (rep, rs') := rewriteScript ff af dir rs matched src
      let (out, rs'') := psGo ff af dir fuel rest rs'
      (rep.toList ++ out, rs'')
    | none =>
      let (out, rs') := psGo ff af dir fuel cs rs
      (c :: out, rs')

/-- Script rewriting pass over a document. -/
def processScripts (ff af : Smap) (dir : String) (l : List Char) (rs : RewriteSt) :
    List Char × RewriteSt :=
  psGo ff af dir (l.length + 1) l rs

/-- `getActiveScriptFile`: first script tag whose resolved (or fallback) path
is a key of `allFiles`; that path, else `null`. -/
def gasGo (af : Smap) (dir : String) : Nat → List Char → Option String
  | 0, _ => none
  | _ + 1, [] => none
  | fuel + 1, c :: cs =>
    match matchScriptAt (c :: cs) with
    | some (src, rest) =>
      let jsPath := resolvePath dir src
      if af.hasKey jsPath then some jsPath
      else
        let fb := dir ++ "/" ++ stripDotSlash src
        if af.hasKey fb then some fb
        else gasGo af dir fuel rest
    | none => gasGo af dir fuel cs

/-- `getActiveScriptFile(htmlContent, htmlDir, allFiles)`. -/
def getActiveScriptFile (html : String) (dir : String) (af : Smap) : Option String :=
  gasGo af dir (html.toList.length + 1) html.toList

/-- Bundled-path strip: one alternative of
`/<script[^>]*src=["'][^"']*["'][^>]*>|<\/script>/gi` — a script open tag
with a `src` attribute (no whitespace required, possibly empty value). -/
def stripMatchA (l : List Char) : Option (List Char) :=
  match dropLitCI "<script".toList l with
  | none => none
  | some r1 =>
    match seekLitQuote "src=".toList r1 with
    | none => none
    | some (_, r2) =>
      let cap := r2.takeWhile (fun c => !quoteChar c)
      let r3 := r2.drop cap.length
      match r3 with
      | q2 :: r4 =>
        if quoteChar q2 then
          match skipToGt r4 with
          | none => none
          | some r5 => some r5
        else none
      | [] => none

/-- Scanner for the bundled-path strip `replace(..., '')`: at each position
try the src-carrying open tag, then the closing tag, deleting matches. -/
def stripGo : Nat → List Char → List Char
  | 0, l => l
  | _ + 1, [] => []
  | fuel + 1, c :: cs =>
    match stripMatchA (c :: cs) with
    | some rest => stripGo fuel rest
    | none =>
      match dropLitCI "</script>".toList (c :: cs) with
      | some rest => stripGo fuel rest
      | none => c :: stripGo fuel cs

/-- `htmlDoc.replace(/<script[^>]*src=["'][^"']*["'][^>]*>|<\/script>/gi, '')`. -/
def stripScriptTags (s : String) : String :=
  ⟨stripGo (s.toList.length + 1) s.toList⟩

/-- Entry selection of the non-bundled path: `lastHtmlFile` when its (truthy)
path is in `allFiles`; else an HTML-named `activeFile` with a truthy path in
`allFiles`; else the first `allFiles` key ending in `.html`. -/
def selectHtmlEntry (lastH actF : Option FileNode) (af : Smap) : Option String :=
  let fromLast : Option String :=
    match lastH with
    | some f => if f.fullPath != "" && af.hasKey f.fullPath then some f.fullPath else none
    | none => none
  let fromEither : Option String :=
    match fromLast with
    | some p => some p
    | none =>
      match actF with
      | some g =>
        if strEnds g.name ".html" && g.fullPath != "" && af.hasKey g.fullPath then
          some g.fullPath
        else none
      | none => none
  match fromEither with
  | some p => some p
  | none => (Smap.keys af).find? (fun k => strEnds k ".html")

/-- `allFiles` condition of the bundled (React) path. -/
def reactCond (af : Smap) : Bool :=
  af.hasKey "package.json" && af.hasKey "src/main.jsx" && af.hasKey "src/index.html"

/-- Fallback document of the bundled path's `?? ...`. -/
def reactDefaultDoc : String :=
  "<!DOCTYPE html><html><body><div id=\"root\"></div></body></html>"

/-- The empty style slot `<style id="dynamic-style"></style>`. -/
def styleSlotEmpty : String :=
  "<style id=\"dynamic-style\"></style>"

/-- The filled style slot. -/
def styleSlotWith (css : String) : String :=
  "<style id=\"dynamic-style\">" ++ css ++ "</style>"

/-- The catch-branch error document: `Build error: ` followed by the error's
message. -/
def errorDocFor (m : String) : String :=
  "<p style=\"color:#fff;padding:1rem;\">Build error: " ++ m ++ "</p>"

/-- The no-entry placeholder document. -/
def placeholderDoc (script : String) : String :=
  "<!DOCTYPE html><html><head>" ++ script ++ styleSlotEmpty ++
    "</head><body><p style=\"color:#fff;padding:1rem;\">No HTML to preview.</p></body></html>"

/-- Result of one pass of `bundleAndPreview` (live-preview variant): the
document assigned to the sandbox, the per-pass asset-URL map, and the updated
orchestrator state. -/
structure PassResult where
  doc : String
  assetUrls : Smap
  orch : OrchSt
deriving Repr

/-- One pass of `bundleAndPreview` over already-collected maps.  `script` is
the instrumentation snippet's text and `bres` the outcome of the bundling
service (consulted only on the bundled path).  The `try`/`catch` of the
source corresponds to the `Except.error` branch: the error is converted into
`errorDocFor` and nothing escapes (the function is total). -/
def previewPassMaps (ff af : Smap) (lastH actF : Option FileNode) (script : String)
    (bres : Except String String) (st : OrchSt) : PassResult :=
  if reactCond af then
    match bres with
    | .ok bundleText =>
      let (jsURL, br1) := createObjectURL st.br bundleText
      let d0 := (af.get "src/index.html").getD reactDefaultDoc
      let d1 := stripScriptTags d0
      let d2 := replaceFirst d1 "</body>"
        ("<script type=\"module\" src=\"" ++ jsURL ++ "\"></script></body>")
      ⟨d2, Smap.set [] "src/main.jsx" jsURL, ⟨br1, some "src/main.jsx", some "src/index.html"⟩⟩
    | .error m => ⟨errorDocFor m, [], st⟩
  else
    match selectHtmlEntry lastH actF af with
    | some entry =>
      let d0 := (af.get entry).getD ""
      let dir := parentDir entry
      let newActive := getActiveScriptFile d0 dir af
      let d1 := replaceFirst d0 "<head>" ("<head>" ++ script)
      let (l2, rs1) := processLinks ff af dir d1.toList ⟨st.br, [], false⟩
      let (l3, rs2) := processScripts ff af dir l2 rs1
      let d3 : String := ⟨l3⟩
      let d4 :=
        if rs2.hasCss then d3
        else
          let dA := replaceFirst d3 "</head>" (styleSlotEmpty ++ "</head>")
          match (Smap.keys af).find? (fun k => strEnds k ".css") with
          | some k => replaceFirst dA styleSlotEmpty (styleSlotWith ((af.get k).getD ""))
          | none => dA
      ⟨d4, rs2.assetUrls, ⟨rs2.br, newActive, some entry⟩⟩
    | none => ⟨placeholderDoc script, [], ⟨st.br, none, none⟩⟩

/-- One pass from the tree: collect the maps, then assemble. -/
def previewPass (tree : FileNode) (lastH actF : Option FileNode) (script : String)
    (bres : Except String String) (st : OrchSt) : PassResult :=
  let maps := collectFiles tree actF lastH
  previewPassMaps maps.1 maps.2 lastH actF script bres st

/-- `n` consecutive rebuild passes over an unchanged tree and pointers,
threading the orchestrator state. -/
def runPasses (tree : FileNode) (lastH actF : Option FileNode) (script : String)
    (bres : Except String String) : Nat → OrchSt → OrchSt
  | 0, st => st
  | n + 1, st => runPasses tree lastH actF script bres n (previewPass tree lastH actF script bres st).orch

/-- A posted console argument: `typeof arg === 'object'` arguments are
JSON-stringified by the router, any other argument contributes its string
conversion. -/
inductive JsArg where
  | prim (s : String)
  | obj (json : String)
deriving Repr

/-- The string an argument contributes to the joined text. -/
def argToString : JsArg → String
  | .prim s => s
  | .obj j => j

/-- JavaScript `Array.prototype.join(sep)`. -/
def joinSep (sep : String) : List String → String
  | [] => ""
  | [x] => x
  | x :: rest => x ++ sep ++ joinSep sep rest

/-- JavaScript `String.prototype.split('/')`: accumulator-based split into
(possibly empty) segments. -/
def splitSlashGo (acc : List Char) : List Char → List String
  | [] => [⟨acc.reverse⟩]
  | c :: cs =>
    if c = '/' then (⟨acc.reverse⟩ : String) :: splitSlashGo [] cs
    else splitSlashGo (c :: acc) cs

/-- Split a string on `/` (never returns an empty list, like `split`). -/
def splitSlash (s : String) : List String :=
  splitSlashGo [] s.toList

/-- Structured messages posted by the sandbox (wire format of the message
channel). -/
inductive SandboxMsg where
  | test
  | debug (message : String)
  | console (method : String) (args : List JsArg) (line : Int)
  | error (message stack : String) (line : Int)
  | other (kind : String)
deriving Repr

/-- An entry of the host's console list (`ConsoleMessage` in the source). -/
structure ConsoleMessage where
  type : String
  message : String
  file : String
  line : Int
deriving Repr

/-- `activeScriptRef.current ? activeScriptRef.current.split('/').pop() ||
'unknown' : 'unknown'`: the basename of the tracked active script, with the
`unknown` sentinel for an untracked (or falsy/empty-basename) script. -/
def attributedFile (activeScript : Option String) : String :=
  match activeScript with
  | none => "unknown"
  | some p =>
    if p = "" then "unknown"
    else
      let last := (splitSlash p).getLast?.getD ""
      if last = "" then "unknown" else last

/-- `handleConsoleMessage`: classify a posted message and append at most one
console entry; `test`/`debug` and unknown kinds are ignored. -/
def handleConsoleMessage (activeScript : Option String) (msgs : List ConsoleMessage) :
    SandboxMsg → List ConsoleMessage
  | .test => msgs
  | .debug _ => msgs
  | .console method args line =>
    msgs ++ [⟨method, joinSep " " (args.map argToString), attributedFile activeScript, line⟩]
  | .error m stack line =>
    msgs ++ [⟨"error", "Error: " ++ m ++ (if stack ≠ "" then "\n" ++ stack else ""),
      attributedFile activeScript, line⟩]
  | .other _ => msgs

/-- Content of `development/index.html` in the default tree of
`EditorContext`. -/
def defaultHtml : String :=
  "<!DOCTYPE html>\n<html>\n<head>\n    <link href=\"styles.css\" rel=\"stylesheet\">\n</head>\n<body>\n    <h1>Welcome</h1>\n</body>\n</html>"

/-- Content of `development/styles.css` in the default tree. -/
def defaultCss : String :=
  "body \x7b\n    background-color: white;\n\x7d\nh1 \x7b\n    color: black;\n\x7d"

/-- The default tree of `EditorContext` (ids, names and full paths as in the
source literal). -/
def defaultTree : FileNode :=
  .dir "root" "project"
    [.dir "development-folder" "development"
      [.file "index-html" "index.html" (some defaultHtml) "development/index.html",
       .file "styles-css" "styles.css" (some defaultCss) "development/styles.css"]
      "development"]
    "development"

/-- The fresh orchestrator state of a new session. -/
def orchSt0 : OrchSt := ⟨⟨0, []⟩, none, none⟩

/-- Appending a list preserves its own initial segment. -/
theorem startsWithL_append (p r : List Char) : startsWithL (p ++ r) p = true := by
  induction p with
  | nil => simp [startsWithL]
  | cons a as ih => simp [startsWithL, ih]

/-- An initial segment is a substring. -/
theorem containsL_of_startsWithL {l p : List Char} (h : startsWithL l p = true) :
    containsL l p = true := by
  cases l with
  | nil =>
    cases p with
    | nil => rfl
    | cons q qs => simp [startsWithL] at h
  | cons c cs => simp [containsL, h]

/-- A substring of the right part is a substring of the whole. -/
theorem containsL_append_left (l₁ l₂ p : List Char) (h : containsL l₂ p = true) :
    containsL (l₁ ++ l₂) p = true := by
  induction l₁ with
  | nil => simpa using h
  | cons a as ih =>
    simp only [List.cons_append, containsL, Bool.or_eq_true]
    exact Or.inr ih

/-- Characters of an initial segment belong to the list. -/
theorem startsWithL_mem {l p : List Char} (h : startsWithL l p = true) :
    ∀ a ∈ p, a ∈ l := by
  induction p generalizing l with
  | nil => intro a ha; simp at ha
  | cons q qs ih =>
    cases l with
    | nil => simp [startsWithL] at h
    | cons c cs =>
      rw [startsWithL, Bool.and_eq_true, beq_iff_eq] at h
      obtain ⟨rfl, h2⟩ := h
      intro a ha
      rcases List.mem_cons.mp ha with rfl | ha'
      · exact List.mem_cons_self _ _
      · exact List.mem_cons_of_mem _ (ih h2 a ha')

/-- Characters of a substring belong to the list. -/
theorem containsL_mem {l p : List Char} (h : containsL l p = true) :
    ∀ a ∈ p, a ∈ l := by
  induction l with
  | nil =>
    intro a ha
    rw [containsL, List.isEmpty_iff] at h
    subst h
    simp at ha
  | cons c cs ih =>
    rw [containsL, Bool.or_eq_true] at h
    rcases h with h | h
    · exact startsWithL_mem h
    · intro a ha
      exact List.mem_cons_of_mem _ (ih h a ha)

/-- Characters of string concatenation. -/
theorem strToList_append (a b : String) : (a ++ b).toList = a.toList ++ b.toList := by
  cases a
  cases b
  rfl

/-- Characters of a string built from a character list. -/
theorem strToList_mk (l : List Char) : (String.mk l).toList = l := rfl

/-- `digitChar10` always yields a decimal digit character. -/
theorem digitChar10_mem (d : Nat) : digitChar10 d ∈ digitChars := by
  unfold digitChar10
  repeat' split
  all_goals decide

/-- Every character produced by `natDigitsGo` is a decimal digit character. -/
theorem natDigitsGo_mem (fuel : Nat) : ∀ n, ∀ c ∈ natDigitsGo fuel n, c ∈ digitChars := by
  induction fuel with
  | zero => intro n c hc; simp [natDigitsGo] at hc
  | succ f ih =>
    intro n c hc
    simp only [natDigitsGo] at hc
    by_cases h : n < 10
    · rw [if_pos h, List.mem_singleton] at hc
      subst hc
      exact digitChar10_mem n
    · rw [if_neg h] at hc
      rcases List.mem_append.mp hc with h1 | h1
      · exact ih (n / 10) c h1
      · rw [List.mem_singleton] at h1
        subst h1
        exact digitChar10_mem _

/-- Every character of `natDigits` is a decimal digit character. -/
theorem natDigits_mem (n : Nat) : ∀ c ∈ natDigits n, c ∈ digitChars :=
  natDigitsGo_mem (n + 1) n

/-- A rewritten script tag for a blob URL carries the module-type attribute
exactly when the flag is set: the attribute text cannot arise from the URL,
whose characters are `blob:` plus decimal digits. -/
theorem scriptTag_module_mark (b : Bool) (n : Nat) :
    strContains (scriptTagFor b (blobUrl n)) " type=\"module\"" = b := by
  cases b with
  | true =>
    have h1 : (scriptTagFor true (blobUrl n)).toList =
        "<script".toList ++ (" type=\"module\"".toList ++
          (" src=\"".toList ++ ((blobUrl n).toList ++ "\"></script>".toList))) := by
      simp [scriptTagFor, strToList_append, List.append_assoc]
    rw [strContains, h1]
    exact containsL_append_left _ _ _ (containsL_of_startsWithL (startsWithL_append _ _))
  | false =>
    apply Bool.eq_false_iff.mpr
    intro h
    have hy : ('y' : Char) ∈ (scriptTagFor false (blobUrl n)).toList :=
      containsL_mem h 'y' (by decide)
    have h1 : (scriptTagFor false (blobUrl n)).toList =
        "<script".toList ++ (" src=\"".toList ++ ("blob:".toList ++
          (natDigits n ++ "\"></script>".toList))) := by
      simp [scriptTagFor, blobUrl, strToList_append, strToList_mk, List.append_assoc]
    rw [h1] at hy
    rcases List.mem_append.mp hy with h2 | h2
    · exact absurd h2 (by decide)
    · rcases List.mem_append.mp h2 with h3 | h3
      · exact absurd h3 (by decide)
      · rcases List.mem_append.mp h3 with h4 | h4
        · exact absurd h4 (by decide)
        · rcases List.mem_append.mp h4 with h5 | h5
          · exact absurd (natDigits_mem n 'y' h5) (by decide)
          · exact absurd h5 (by decide)

/-- The script-hit action marks the tag as a module script exactly when the
content contains `"import "` or `"export "`. -/
theorem jsHit_module (path c : String) (rs : RewriteSt) :
    strContains (jsHit path c rs).1 " type=\"module\"" =
      (strContains c "import " || strContains c "export ") := by
  simp only [jsHit, createObjectURL]
  exact scriptTag_module_mark _ _

/-- A subtree fixture: `development/sub/page.html`, identified by `h1`. -/
def pageNode : FileNode :=
  .file "h1" "page.html" (some "<html></html>") "development/sub/page.html"

/-- A tree whose `development` folder holds `sub` (id `f1`) containing
`pageNode`. -/
def cexTree : FileNode :=
  .dir "root" "project"
    [.dir "development-folder" "development"
      [.dir "f1" "sub" [pageNode] "development/sub"]
      "development"]
    "development"

/-- Session state tracking `pageNode` as the last HTML file. -/
def cexState : EState :=
  ⟨cexTree, none, "", "javascript", [], some pageNode, some pageNode, false⟩

/-- A tree and state for the update/save frame claim. -/
def wFile10 : FileNode := .file "a1" "app.js" (some "x") "development/app.js"

/-- Tree containing `wFile10`. -/
def wTree10 : FileNode :=
  .dir "root" "project"
    [.dir "development-folder" "development" [wFile10] "development"]
    "development"

/-- State with `wFile10` active, open and dirty. -/
def wState10 : EState :=
  ⟨wTree10, none, "newtext", "javascript", [(wFile10, true)], some wFile10, none, false⟩

/-- `src/index.html` content of the React folder template. -/
def reactIndexHtml : String :=
  "<!DOCTYPE html>\n<html><body>\n  <div id=\"root\"></div>\n  <script type=\"module\" src=\"./main.jsx\"></script>\n</body></html>"

/-- File map of a React-template project (bundling input contents are
irrelevant to the document assembly under test). -/
def reactTemplateAll : Smap :=
  [("package.json", ""), ("src/main.jsx", ""), ("src/index.html", reactIndexHtml)]

/-- File map with the three React-path keys but an entry document lacking a
closing body tag. -/
def reactBadAll : Smap :=
  [("package.json", ""), ("src/main.jsx", ""), ("src/index.html", "<html>")]

/-- File map with the three React-path keys, for the error-conversion claim. -/
def reactErrAll : Smap :=
  [("package.json", ""), ("src/main.jsx", ""), ("src/index.html", "<body></body>")]

set_option maxRecDepth 100000 in
/-- C1: blob handles are never revoked — evaluating consecutive preview
passes over the default tree (which substitutes one stylesheet asset per
pass) shows one live handle after one pass but two after two passes, so the
set of live handles grows with the number of passes instead of staying
within one generation's worth (= 1 here). -/
theorem c1_blob_handle_leak :
    (runPasses defaultTree none none "" (.ok "") 1 orchSt0).br.live.length = 1
    ∧ (runPasses defaultTree none none "" (.ok "") 2 orchSt0).br.live.length = 2 :=
  ⟨rfl, rfl⟩

/-- C2 counterexample: deleting the ancestor folder `f1` destroys the
tracked HTML file `h1` (it is no longer findable in the tree), yet
`lastHtmlFile` still points at it instead of being cleared. -/
theorem c2_ancestor_delete_keeps_pointer :
    (reducer cexState (.deleteNode "f1")).lastHtmlFile = some pageNode
    ∧ findNodeById (reducer cexState (.deleteNode "f1")).fileTree "h1" = none :=
  ⟨rfl, rfl⟩

/-- C2 amended: after a delete, `lastHtmlFile` is cleared exactly when the
deleted node's id equals the pointer's id; any other delete — including one
that removes an ancestor folder and with it the pointed-to file — leaves the
pointer unchanged. -/
theorem c2_delete_pointer_rule (s : EState) (i : String) :
    (reducer s (.deleteNode i)).lastHtmlFile =
      (match s.lastHtmlFile with
       | some lh => if lh.id = i then none else some lh
       | none => none) :=
  rfl

/-- Node components of an open-files list survive a dirty-flag update. -/
theorem map_fst_mark (l : List (FileNode × Bool)) (idv : String) (b : Bool) :
    (l.map (fun f => if f.1.id = idv then (f.1, b) else f)).map Prod.fst =
      l.map Prod.fst := by
  induction l with
  | nil => rfl
  | cons h t ih =>
    simp only [List.map_cons]
    rw [ih]
    congr 1
    split <;> rfl

/-- C10: `UPDATE_CONTENT` never touches the file tree (nor the open files'
nodes, the language, the HTML pointer or the preview flag — only the
in-memory content copies and dirty flags may change), and the tree's stored
content is written by `SAVE_FILE` for the active file, which replaces the
tree with `updateNodeContent`. -/
theorem c10_update_content_frame (s : EState) (c fid : String) :
    (reducer s (.updateContent c)).fileTree = s.fileTree
    ∧ (reducer s (.updateContent c)).openFiles.map Prod.fst = s.openFiles.map Prod.fst
    ∧ (reducer s (.updateContent c)).language = s.language
    ∧ (reducer s (.updateContent c)).lastHtmlFile = s.lastHtmlFile
    ∧ (reducer s (.updateContent c)).showPreview = s.showPreview
    ∧ (∀ act, s.activeFile = some act → act.id = fid →
        (reducer s (.saveFile fid)).fileTree =
          updateNodeContent s.fileTree fid s.fileContent) := by
  refine ⟨?_, ?_, ?_, ?_, ?_, ?_⟩
  · rcases hA : s.activeFile with _ | act <;> simp [reducer, hA]
  · rcases hA : s.activeFile with _ | act
    · simp [reducer, hA]
    · simp only [reducer, hA]
      exact map_fst_mark s.openFiles act.id true
  · rcases hA : s.activeFile with _ | act <;> simp [reducer, hA]
  · rcases hA : s.activeFile with _ | act <;> simp [reducer, hA]
  · rcases hA : s.activeFile with _ | act <;> simp [reducer, hA]
  · intro act ha hid
    simp [reducer, ha, hid]

/-- C10 witness: on a concrete session, editing leaves the tree untouched
and saving writes the pending content through `updateNodeContent`. -/
theorem c10_update_content_frame_witness :
    (reducer wState10 (.updateContent "z")).fileTree = wState10.fileTree
    ∧ (reducer wState10 (.saveFile "a1")).fileTree =
        updateNodeContent wState10.fileTree "a1" wState10.fileContent := by
  have h := c10_update_content_frame wState10 "z" "a1"
  exact ⟨h.1, h.2.2.2.2.2 wFile10 rfl rfl⟩

/-- C9: a posted console message appends exactly one entry — kind is the
posted method, text the space-join of the (stringified) arguments, line the
posted line, file the basename of the tracked active script (`unknown` when
none) — and, concretely, `warn ['hi']` at line 3 with active script
`development/app.js` yields `⟨warn, hi, app.js, 3⟩`. -/
theorem c9_console_routing (act : Option String) (msgs : List ConsoleMessage)
    (method : String) (args : List JsArg) (line : Int) :
    handleConsoleMessage act msgs (.console method args line) =
      msgs ++ [⟨method, joinSep " " (args.map argToString), attributedFile act, line⟩]
    ∧ handleConsoleMessage (some "development/app.js") []
        (.console "warn" [.prim "hi"] 3) = [⟨"warn", "hi", "app.js", 3⟩] :=
  ⟨rfl, rfl⟩

/-- C4 counterexample: with the three React-path keys present but an entry
document lacking a closing body tag, bundling succeeds yet the resulting
document contains no module script tag at all — not exactly one. -/
theorem c4_no_body_no_module_script :
    reactCond reactBadAll = true
    ∧ countStr (previewPassMaps [] reactBadAll none none "" (.ok "BUNDLE") orchSt0).doc
        "<script type=\"module\"" = 0 :=
  ⟨rfl, rfl⟩

/-- C4 amended: for a file map with root-level `package.json`,
`src/main.jsx` and the React template's `src/index.html`, the pipeline takes
the bundled path, and on bundling success the document contains exactly one
script tag — the module-typed one referencing the bundle blob, spliced
before the closing body tag — and none of the entry's original script tags
(whatever the other inputs of the pass). -/
theorem c4_bundled_path_template (ff : Smap) (lastH actF : Option FileNode) (script : String) :
    reactCond reactTemplateAll = true
    ∧ countStr (previewPassMaps ff reactTemplateAll lastH actF script (.ok "BUNDLE") orchSt0).doc
        "<script" = 1
    ∧ strContains (previewPassMaps ff reactTemplateAll lastH actF script (.ok "BUNDLE") orchSt0).doc
        "<script type=\"module\" src=\"blob:0\"></script></body>" = true
    ∧ strContains (previewPassMaps ff reactTemplateAll lastH actF script (.ok "BUNDLE") orchSt0).doc
        "src=\"./main.jsx\"" = false :=
  ⟨rfl, rfl, rfl, rfl⟩

/-- C5: when the bundled path is taken and the bundling service fails with
message `m`, the pass — a total function, so no exception can escape it —
yields exactly the inline error document, which literally contains `m`. -/
theorem c5_error_converted_to_document (ff af : Smap) (lastH actF : Option FileNode)
    (script m : String) (st : OrchSt) (hr : reactCond af = true) :
    (previewPassMaps ff af lastH actF script (.error m) st).doc = errorDocFor m
    ∧ strContains (previewPassMaps ff af lastH actF script (.error m) st).doc m = true := by
  have hdoc : (previewPassMaps ff af lastH actF script (.error m) st).doc = errorDocFor m := by
    simp [previewPassMaps, hr]
  refine ⟨hdoc, ?_⟩
  rw [hdoc]
  have h1 : (errorDocFor m).toList =
      "<p style=\"color:#fff;padding:1rem;\">Build error: ".toList ++
        (m.toList ++ "</p>".toList) := by
    simp [errorDocFor, strToList_append, List.append_assoc]
  rw [strContains, h1]
  exact containsL_append_left _ _ _ (containsL_of_startsWithL (startsWithL_append _ _))

/-- C5 witness: a failing bundling pass over a React-keyed map renders the
message `boom` into the assigned document. -/
theorem c5_error_converted_to_document_witness :
    strContains (previewPassMaps [] reactErrAll none none "" (.error "boom") orchSt0).doc
      "boom" = true :=
  (c5_error_converted_to_document [] reactErrAll none none "" "boom" orchSt0 (by decide)).2

/-- C3: on the non-bundled path, the entry HTML is chosen with first match
winning — (a) a `lastHtmlFile` whose (non-empty) path is a key of
`allFiles`; (b) otherwise an `activeFile` named `*.html` whose (non-empty)
path is a key of `allFiles`; (c) otherwise the first `allFiles` key ending
in `.html`; and (d) when nothing is selected, the pass emits the placeholder
document carrying the literal `No HTML to preview` text and the empty style
slot, creating no resource handles and rewriting no assets. -/
theorem c3_entry_priority_and_placeholder (lastH actF : Option FileNode) (ff af : Smap)
    (script : String) (bres : Except String String) (st : OrchSt) :
    (∀ f, lastH = some f → f.fullPath ≠ "" → af.hasKey f.fullPath = true →
      selectHtmlEntry lastH actF af = some f.fullPath)
    ∧ ((∀ f, lastH = some f → f.fullPath = "" ∨ af.hasKey f.fullPath = false) →
        ∀ g, actF = some g → strEnds g.name ".html" = true → g.fullPath ≠ "" →
          af.hasKey g.fullPath = true →
          selectHtmlEntry lastH actF af = some g.fullPath)
    ∧ ((∀ f, lastH = some f → f.fullPath = "" ∨ af.hasKey f.fullPath = false) →
        (∀ g, actF = some g →
          strEnds g.name ".html" = false ∨ g.fullPath = "" ∨ af.hasKey g.fullPath = false) →
        selectHtmlEntry lastH actF af = (Smap.keys af).find? (fun k => strEnds k ".html"))
    ∧ (reactCond af = false → selectHtmlEntry lastH actF af = none →
        strContains (previewPassMaps ff af lastH actF script bres st).doc
          "No HTML to preview" = true
        ∧ strContains (previewPassMaps ff af lastH actF script bres st).doc
            styleSlotEmpty = true
        ∧ (previewPassMaps ff af lastH actF script bres st).orch.br = st.br
        ∧ (previewPassMaps ff af lastH actF script bres st).assetUrls = []) := by
  refine ⟨?_, ?_, ?_, ?_⟩
  · intro f hf h1 h2
    subst hf
    simp [selectHtmlEntry, h1, h2]
  · intro hno g hg h1 h2 h3
    subst hg
    rcases lastH with _ | f
    · simp [selectHtmlEntry, h1, h2, h3]
    · rcases hno f rfl with h | h
      · simp [selectHtmlEntry, h, h1, h2, h3]
      · simp [selectHtmlEntry, h, h1, h2, h3]
  · intro hno hact
    rcases lastH with _ | f
    · rcases actF with _ | g
      · simp [selectHtmlEntry]
      · rcases hact g rfl with h | h | h
        · simp [selectHtmlEntry, h]
        · simp [selectHtmlEntry, h]
        · simp [selectHtmlEntry, h]
    · rcases hno f rfl with hf | hf
      · rcases actF with _ | g
        · simp [selectHtmlEntry, hf]
        · rcases hact g rfl with h | h | h
          · simp [selectHtmlEntry, hf, h]
          · simp [selectHtmlEntry, hf, h]
          · simp [selectHtmlEntry, hf, h]
      · rcases actF with _ | g
        · simp [selectHtmlEntry, hf]
        · rcases hact g rfl with h | h | h
          · simp [selectHtmlEntry, hf, h]
          · simp [selectHtmlEntry, hf, h]
          · simp [selectHtmlEntry, hf, h]
  · intro hrc hsel
    have hres : previewPassMaps ff af lastH actF script bres st =
        ⟨placeholderDoc script, [], ⟨st.br, none, none⟩⟩ := by
      simp [previewPassMaps, hrc, hsel]
    rw [hres]
    refine ⟨?_, ?_, rfl, rfl⟩
    · have h1 : (placeholderDoc script).toList =
          "<!DOCTYPE html><html><head>".toList ++ (script.toList ++
            (styleSlotEmpty.toList ++
              "</head><body><p style=\"color:#fff;padding:1rem;\">No HTML to preview.</p></body></html>".toList)) := by
        simp [placeholderDoc, strToList_append, List.append_assoc]
      rw [strContains, h1]
      refine containsL_append_left _ _ _ (containsL_append_left _ _ _
        (containsL_append_left _ _ _ ?_))
      decide
    · have h1 : (placeholderDoc script).toList =
          "<!DOCTYPE html><html><head>".toList ++ (script.toList ++
            (styleSlotEmpty.toList ++
              "</head><body><p style=\"color:#fff;padding:1rem;\">No HTML to preview.</p></body></html>".toList)) := by
        simp [placeholderDoc, strToList_append, List.append_assoc]
      rw [strContains, h1]
      exact containsL_append_left _ _ _ (containsL_append_left _ _ _
        (containsL_of_startsWithL (startsWithL_append _ _)))

/-- Fixture for the entry-priority witness. -/
def wHtmlFile : FileNode := .file "i1" "page.html" (some "x") "development/page.html"

/-- File map resolving the fixture. -/
def wAf3 : Smap := [("development/page.html", "x")]

/-- C3 witness: a tracked HTML file resolvable in `allFiles` is selected,
and on an empty map the pass renders the placeholder message. -/
theorem c3_entry_priority_and_placeholder_witness :
    selectHtmlEntry (some wHtmlFile) none wAf3 = some "development/page.html"
    ∧ strContains (previewPassMaps [] [] none none "" (.ok "") orchSt0).doc
        "No HTML to preview" = true := by
  constructor
  · exact (c3_entry_priority_and_placeholder (some wHtmlFile) none [] wAf3 "" (.ok "")
      orchSt0).1 wHtmlFile rfl (by decide) (by decide)
  · exact ((c3_entry_priority_and_placeholder none none [] [] "" (.ok "")
      orchSt0).2.2.2 (by decide) (by decide)).1

/-- C6: when the resolved path is bound in `folderFiles`, both tag
callbacks substitute the `folderFiles` content — the synthesized handle
carries it — regardless of what `allFiles` binds to the same path, and the
stylesheet tag's href becomes the fresh handle's URL (tier order
`folderFiles`, `allFiles`, fallback). -/
theorem c6_folder_files_precedence (ff af : Smap) (dir matched href : String)
    (rs : RewriteSt) (c c' : String)
    (hf : ff.get (resolvePath dir href) = some c)
    (_ha : af.get (resolvePath dir href) = some c') :
    (rewriteLink ff af dir rs matched href).1 = linkTagFor (blobUrl rs.br.nextId)
    ∧ (rewriteLink ff af dir rs matched href).2.br.live =
        rs.br.live ++ [(rs.br.nextId, c)]
    ∧ (rewriteScript ff af dir rs matched href).2.br.live =
        rs.br.live ++ [(rs.br.nextId, c)] := by
  refine ⟨?_, ?_, ?_⟩ <;>
    simp [rewriteLink, rewriteScript, hf, cssHit, jsHit, createObjectURL]

/-- Folder-scoped fixture binding the same path as `wAf6`. -/
def wFf6 : Smap := [("development/styles.css", "folder-css")]

/-- Project-wide fixture with conflicting content. -/
def wAf6 : Smap := [("development/styles.css", "all-css")]

/-- C6 witness: with both maps binding `development/styles.css` to different
contents, the created handle holds the `folderFiles` content. -/
theorem c6_folder_files_precedence_witness :
    (rewriteLink wFf6 wAf6 "development" ⟨⟨0, []⟩, [], false⟩ "m" "styles.css").2.br.live =
      [(0, "folder-css")] := by
  have h := c6_folder_files_precedence wFf6 wAf6 "development" "m" "styles.css"
    ⟨⟨0, []⟩, [], false⟩ "folder-css" "all-css" (by decide) (by decide)
  simpa using h.2.1

/-- C7: whenever the script lookup hits (any tier) with content `c`, the
rewritten tag carries the module-type attribute exactly when `c` textually
contains `"import "` or `"export "`. -/
theorem c7_module_attribute_iff (ff af : Smap) (dir matched src c : String) (rs : RewriteSt)
    (h : scriptContentUsed ff af dir src = some c) :
    strContains (rewriteScript ff af dir rs matched src).1 " type=\"module\"" =
      (strContains c "import " || strContains c "export ") := by
  unfold scriptContentUsed at h
  unfold rewriteScript
  rcases h1 : Smap.get ff (resolvePath dir src) with _ | c1
  · rcases h2 : Smap.get af (resolvePath dir src) with _ | c2
    · rcases h3 : (Smap.hasKey ff (fbPath dir src) || Smap.hasKey af (fbPath dir src)) with _ | _
      · simp [h1, h2, h3] at h
      · simp only [h1, h2, h3, if_true, Option.some.injEq] at h ⊢
        rw [h]
        exact jsHit_module _ _ _
    · simp only [h1, h2, Option.some.injEq] at h ⊢
      subst h
      exact jsHit_module _ _ _
  · simp only [h1, Option.some.injEq] at h ⊢
    subst h
    exact jsHit_module _ _ _

/-- Fixture: project files for the module-flag witness. -/
def wAf7 : Smap := [("development/app.js", "export const x=1;")]

/-- C7 witness: `development/index.html`'s `<script src="app.js">` with
`app.js` containing `export const x=1;` is rewritten with the module-type
attribute. -/
theorem c7_module_attribute_iff_witness :
    strContains (rewriteScript [] wAf7 "development" ⟨⟨0, []⟩, [], false⟩
      "<script src=\"app.js\">" "app.js").1 " type=\"module\"" = true := by
  have h := c7_module_attribute_iff [] wAf7 "development" "<script src=\"app.js\">"
    "app.js" "export const x=1;" ⟨⟨0, []⟩, [], false⟩ (by decide)
  rw [h]
  decide

/-- C8: when the resolved path misses both maps and the fallback path
misses both maps as well, each callback returns the original matched tag
text byte-for-byte and leaves the rewrite state untouched (no handle is
created, the pass continues). -/
theorem c8_miss_leaves_tag_unchanged (ff af : Smap) (dir matched href : String)
    (rs : RewriteSt)
    (h1 : ff.get (resolvePath dir href) = none)
    (h2 : af.get (resolvePath dir href) = none)
    (h3 : ff.hasKey (fbPath dir href) = false)
    (h4 : af.hasKey (fbPath dir href) = false) :
    rewriteLink ff af dir rs matched href = (matched, rs)
    ∧ rewriteScript ff af dir rs matched href = (matched, rs) := by
  constructor <;> simp [rewriteLink, rewriteScript, h1, h2, h3, h4]

/-- C8 witness: `./missing.css` with no matching file anywhere leaves the
`<link>` tag byte-identical and the state unchanged. -/
theorem c8_miss_leaves_tag_unchanged_witness :
    rewriteLink [] [("development/index.html", "x")] "development" ⟨⟨0, []⟩, [], false⟩
      "<link href=\"./missing.css\" rel=\"stylesheet\">" "./missing.css" =
      ("<link href=\"./missing.css\" rel=\"stylesheet\">", ⟨⟨0, []⟩, [], false⟩) :=
  (c8_miss_leaves_tag_unchanged [] [("development/index.html", "x")] "development"
    "<link href=\"./missing.css\" rel=\"stylesheet\">" "./missing.css" ⟨⟨0, []⟩, [], false⟩
    (by decide) (by decide) (by decide) (by decide)).1
